import Mathlib

/-!
Verification of the math-wizard repository's answer-extraction, input
normalization, difficulty-classification, reward, stats and challenge
logic against its natural-language specification.

Shallow embedding conventions:
* JavaScript numbers are modelled by exact rationals (and naturals /
  integers where the code only ever holds integer values); the floating
  point rounding of IEEE doubles is idealized away.
* JavaScript NaN results are modelled by Option.none.
* Strings are modelled as List Char; the handful of regular expressions
  used by the code are implemented directly as scanners with the same
  leftmost-match, greedy semantics the JS engine exhibits on these
  particular patterns.
-/

namespace MathWizard

/-! ## Reward engine (src/src/services/xpService.js) -/

/-- Level thresholds table LEVEL_THRESHOLDS from xpService.js. -/
def LEVEL_THRESHOLDS : List ℕ := [0, 100, 250, 500, 800, 1200, 1700, 2500, 3500, 5000]

/-- Model of getLevelForXP: walk the threshold table from the top and return
the first (largest) index whose threshold is at or below the XP, 1-based;
default 1. -/
def getLevelForXP (xp : ℕ) : ℕ :=
  match (List.range LEVEL_THRESHOLDS.length).reverse.find?
      (fun i => LEVEL_THRESHOLDS.getD i 0 ≤ xp) with
  | some i => i + 1
  | none => 1

/-- Difficulty bonus table DIFFICULTY_BONUS from xpService.js, with the
JavaScript fallback (undefined key is falsy, so unknown tiers give 0). -/
def DIFFICULTY_BONUS (difficulty : String) : ℕ :=
  if difficulty = "Very Easy" then 0
  else if difficulty = "Easy" then 0
  else if difficulty = "Medium" then 5
  else if difficulty = "Hard" then 10
  else if difficulty = "Very Hard" then 15
  else 0

/-- Model of calculateXPEarned from xpService.js: 0 when incorrect, else
base 10 plus streak bonus (2 per streak level, capped at 20) plus the
difficulty bonus. -/
def calculateXPEarned (correct : Bool) (streak : ℕ) (difficulty : String) : ℕ :=
  if !correct then 0
  else 10 + min (streak * 2) 20 + DIFFICULTY_BONUS difficulty

/-- State read from the user document by getUserXP before awarding. -/
structure UserXPState where
  totalXP : ℕ
  level : ℕ
  dailyQuestions : ℕ
  dailyGoal : ℕ
  lastActiveDate : String
  deriving DecidableEq, Repr

/-- Result record returned by awardXP. -/
structure AwardResult where
  xpEarned : ℕ
  totalXP : ℕ
  level : ℕ
  leveledUp : Bool
  dailyQuestions : ℕ
  dailyGoal : ℕ
  deriving DecidableEq, Repr

/-- JavaScript-style falsy-or on naturals: a || b is b when a is 0. -/
def jsOrNat (a b : ℕ) : ℕ := if a = 0 then b else a

/-- Model of awardXP from xpService.js. The Firestore write (either setDoc
call) is abstracted by the writeSucceeds flag; the code wraps both writes
in one try block whose catch clause returns a fallback built from the
state read before the update, so a failed write never escapes as an
exception and the function is total. -/
def awardXP (current : UserXPState) (today : String) (correct : Bool)
    (streak : ℕ) (difficulty : String) (writeSucceeds : Bool) : AwardResult :=
  let xpEarned := calculateXPEarned correct streak difficulty
  let isNewDay := current.lastActiveDate ≠ today
  let newDaily := if isNewDay then 1 else current.dailyQuestions + 1
  if writeSucceeds then
    if xpEarned = 0 then
      { xpEarned := 0
        totalXP := current.totalXP
        level := current.level
        leveledUp := false
        dailyQuestions := newDaily
        dailyGoal := current.dailyGoal }
    else
      let newTotalXP := current.totalXP + xpEarned
      let oldLevel := getLevelForXP current.totalXP
      let newLevel := getLevelForXP newTotalXP
      { xpEarned := xpEarned
        totalXP := newTotalXP
        level := newLevel
        leveledUp := decide (oldLevel < newLevel)
        dailyQuestions := newDaily
        dailyGoal := jsOrNat current.dailyGoal 10 }
  else
    { xpEarned := 0
      totalXP := current.totalXP
      level := current.level
      leveledUp := false
      dailyQuestions := current.dailyQuestions
      dailyGoal := current.dailyGoal }

/-! ## Grade-aware difficulty classifier (src/unnamed/part_003) -/

/-- Threshold record returned by getDifficultyThresholdsForGrade. -/
structure DifficultyThresholds where
  veryEasy : ℚ
  easy : ℚ
  medium : ℚ
  hard : ℚ
  veryHard : ℚ
  deriving DecidableEq, Repr

/-- Model of getDifficultyThresholdsForGrade from src/unnamed/part_003:
a fixed per-grade table, defaulting to the 4-5 entry for unknown grades. -/
def getDifficultyThresholdsForGrade (grade : String) : DifficultyThresholds :=
  if grade = "KG-1" then ⟨0, 0.25, 0.40, 0.60, 0.75⟩
  else if grade = "2-3" then ⟨0.10, 0.30, 0.50, 0.70, 0.85⟩
  else if grade = "4-5" then ⟨0.20, 0.40, 0.60, 0.75, 0.85⟩
  else if grade = "6-7" then ⟨0.30, 0.50, 0.65, 0.80, 0.88⟩
  else if grade = "7-8" then ⟨0.40, 0.55, 0.70, 0.82, 0.90⟩
  else if grade = "9+" then ⟨0.50, 0.65, 0.75, 0.85, 0.92⟩
  else ⟨0.20, 0.40, 0.60, 0.75, 0.85⟩

/-- Result record of calculateGradeAwareDifficulty. -/
structure GradeDifficultyResult where
  difficulty : String
  accuracy : ℤ
  threshold : ℤ
  deriving DecidableEq, Repr

/-- Math.round for nonnegative-or-any rationals: floor of x + 1/2 (JS
rounds half away from zero for positives and half toward positive
infinity in general; floor of x + 1/2 matches JS on every value the
embedded code produces). -/
def jsRound (q : ℚ) : ℤ := Rat.floor (q + 1/2)

/-- Accuracy as computed by calculateGradeAwareDifficulty: correct/total,
taken as 0 when total is 0. -/
def accuracyOf (correct total : ℕ) : ℚ :=
  if 0 < total then (correct : ℚ) / (total : ℚ) else 0

/-- Model of calculateGradeAwareDifficulty from src/unnamed/part_003. -/
def calculateGradeAwareDifficulty (correct total : ℕ) (grade : String) :
    GradeDifficultyResult :=
  let accuracy := accuracyOf correct total
  let t := getDifficultyThresholdsForGrade grade
  let p : String × ℚ :=
    if accuracy < t.veryEasy then ("Very Easy", t.veryEasy)
    else if accuracy < t.easy then ("Easy", t.easy)
    else if accuracy < t.medium then ("Medium", t.medium)
    else if accuracy < t.hard then ("Hard", t.hard)
    else ("Very Hard", t.veryHard)
  { difficulty := p.1
    accuracy := jsRound (accuracy * 100)
    threshold := jsRound (p.2 * 100) }

/-- Rank of the five difficulty tiers in the order
Very Easy < Easy < Medium < Hard < Very Hard. -/
def tierRank (difficulty : String) : ℕ :=
  if difficulty = "Very Easy" then 0
  else if difficulty = "Easy" then 1
  else if difficulty = "Medium" then 2
  else if difficulty = "Hard" then 3
  else 4

/-! ## User statistics (src/src/services/databaseService.js) -/

/-- One entry of the answer history consumed by getUserStats. -/
structure AnswerRec where
  correct : Bool
  operation : String
  deriving DecidableEq, Repr

/-- One weak-area entry of the stats result. -/
structure WeakArea where
  name : String
  accuracy : ℤ
  total : ℕ
  deriving DecidableEq, Repr

/-- Stats record returned by getUserStats. -/
structure UserStats where
  totalQuestions : ℕ
  accuracy : ℤ
  streak : ℕ
  weakAreas : List WeakArea
  deriving DecidableEq, Repr

/-- JavaScript-style falsy-or on strings: a || b is b when a is empty. -/
def jsOrStr (a b : String) : String := if a = "" then b else a

/-- Accumulate per-operation (correct, total) counters in first-occurrence
order, mirroring the JS object whose keys enumerate in insertion order. -/
def bumpArea (name : String) (correct : Bool) :
    List (String × ℕ × ℕ) → List (String × ℕ × ℕ)
  | [] => [(name, if correct then 1 else 0, 1)]
  | (n, c, t) :: rest =>
    if n = name then (n, c + (if correct then 1 else 0), t + 1) :: rest
    else (n, c, t) :: bumpArea name correct rest

/-- Fold the history into per-operation counters (insertion order). -/
def collectAreas (history : List AnswerRec) : List (String × ℕ × ℕ) :=
  history.foldl (fun acc a => bumpArea (jsOrStr a.operation "general") a.correct acc) []

/-- Stable ascending insertion by accuracy, mirroring the stable JS
Array.prototype.sort with comparator a.accuracy - b.accuracy. -/
def insertWeakArea (x : WeakArea) : List WeakArea → List WeakArea
  | [] => [x]
  | y :: rest =>
    if x.accuracy < y.accuracy then x :: y :: rest
    else y :: insertWeakArea x rest

/-- Stable insertion sort used to model the weak-area ordering. -/
def sortWeakAreas (l : List WeakArea) : List WeakArea :=
  l.foldl (fun acc x => insertWeakArea x acc) []

/-- Model of the pure computation inside getUserStats from
databaseService.js, applied to the (timestamp-sorted) history. -/
def getUserStats (history : List AnswerRec) : UserStats :=
  if history.isEmpty then
    { totalQuestions := 0, accuracy := 0, streak := 0, weakAreas := [] }
  else
    let totalQuestions := history.length
    let correctAnswers := (history.filter (fun a => a.correct)).length
    let accuracy := jsRound ((correctAnswers : ℚ) / (totalQuestions : ℚ) * 100)
    let weakAreas := sortWeakAreas <| (collectAreas history).map fun p =>
      { name := p.1
        accuracy := if 0 < p.2.2 then jsRound ((p.2.1 : ℚ) / (p.2.2 : ℚ) * 100) else 0
        total := p.2.2 }
    let streak := (history.reverse.takeWhile (fun a => a.correct)).length
    { totalQuestions := totalQuestions
      accuracy := accuracy
      streak := streak
      weakAreas := weakAreas }

/-! ## Challenge service (src/src/services/challengeService.js) -/

/-- Challenge status enumeration. -/
inductive CStatus where
  | waiting
  | active
  | completed
  deriving DecidableEq, Repr

/-- Order of challenge statuses along the intended lifecycle. -/
def statusRank : CStatus → ℕ
  | .waiting => 0
  | .active => 1
  | .completed => 2

/-- One submitted challenge answer, per the document schema. -/
structure CAnswer where
  answer : String
  correct : Bool
  timeMs : ℕ
  deriving DecidableEq, Repr

/-- Player role in a challenge. -/
inductive Role where
  | creator
  | opponent
  deriving DecidableEq, Repr

/-- The challenge document fields the create/join/submit logic touches
(timestamps are opaque server values and are omitted). -/
structure Challenge where
  creatorId : String
  opponentId : Option String
  questions : List String
  status : CStatus
  creatorAnswers : List CAnswer
  opponentAnswers : List CAnswer
  deriving DecidableEq, Repr

/-- Model of createChallenge: fresh document in waiting state with the
pre-generated shared question set and empty answer arrays. -/
def createChallenge (creatorId : String) (questions : List String) : Challenge :=
  { creatorId := creatorId
    opponentId := none
    questions := questions
    status := .waiting
    creatorAnswers := []
    opponentAnswers := [] }

/-- Model of joinChallenge: the Firestore query only returns documents with
status waiting, joining one's own challenge throws, and a successful join
records the opponent and sets the status to active. Failure is none. -/
def joinChallenge (c : Challenge) (userId : String) : Option Challenge :=
  if c.status = .waiting then
    if c.creatorId = userId then none
    else some { c with opponentId := some userId, status := .active }
  else none

/-- Model of submitChallengeAnswer: append to the submitting role's answer
array and mark the challenge completed exactly when both arrays have
reached the shared question count. -/
def submitChallengeAnswer (c : Challenge) (role : Role) (a : CAnswer) : Challenge :=
  let updated := (match role with
    | .creator => c.creatorAnswers
    | .opponent => c.opponentAnswers) ++ [a]
  let other := match role with
    | .creator => c.opponentAnswers
    | .opponent => c.creatorAnswers
  let done := c.questions.length ≤ updated.length ∧ c.questions.length ≤ other.length
  { c with
    creatorAnswers := match role with
      | .creator => updated
      | .opponent => c.creatorAnswers
    opponentAnswers := match role with
      | .creator => c.opponentAnswers
      | .opponent => updated
    status := if done then .completed else c.status }

/-! ## String scanning primitives

The source uses a handful of JavaScript regular expressions.  Each one is
implemented below as a direct scanner over List Char with the same
leftmost-match and greedy (maximal-munch) behaviour the JS engine has on
these particular patterns: every quantified piece is followed by a
character class disjoint from it, so greedy matching never needs to
backtrack into a quantifier. -/

/-- Whitespace class used by the source's regexes and by String.trim. -/
def isWsChar (c : Char) : Bool :=
  c = ' ' || c = '\t' || c = '\n' || c = '\r'

/-- Read a maximal run of ASCII digits, returning the run and the rest. -/
def readDigits : List Char → List Char × List Char
  | [] => ([], [])
  | c :: t =>
    if c.isDigit then
      let p := readDigits t
      (c :: p.1, p.2)
    else ([], c :: t)

/-- Numeric value of a digit run, as parseInt computes it. -/
def natOfDigits (l : List Char) : ℕ :=
  l.foldl (fun acc c => 10 * acc + (c.toNat - 48)) 0

/-- Accumulator step of digitRuns. -/
def digitRunsAux : List Char → List Char → List (List Char)
  | [], acc => if acc.isEmpty then [] else [acc.reverse]
  | c :: t, acc =>
    if c.isDigit then digitRunsAux t (c :: acc)
    else if acc.isEmpty then digitRunsAux t []
    else acc.reverse :: digitRunsAux t []

/-- All maximal digit runs of a string, in order: the global match of the
digit-run regex used throughout the extractor. -/
def digitRuns (l : List Char) : List (List Char) := digitRunsAux l []

/-- Try a position-local matcher at every start position from left to
right and return its first hit: the leftmost-match rule of a JS regex
search. -/
def scanFirst (f : List Char → Option α) : List Char → Option α
  | [] => f []
  | c :: t =>
    match f (c :: t) with
    | some v => some v
    | none => scanFirst f t

/-- Try a position-local test at every start position: existence version
of scanFirst. -/
def anyTail (f : List Char → Bool) : List Char → Bool
  | [] => f []
  | c :: t => f (c :: t) || anyTail f t

/-- Substring containment, as the JS String.prototype.includes test. -/
def containsSeq : List Char → List Char → Bool
  | pat, [] => pat.isEmpty
  | pat, c :: t => pat.isPrefixOf (c :: t) || containsSeq pat t

/-- Case-insensitive literal match: strip pat from the front of the input,
comparing letters case-insensitively (the /i regex flag). -/
def matchCI : List Char → List Char → Option (List Char)
  | [], l => some l
  | _ :: _, [] => none
  | p :: ps, c :: cs => if p.toLower = c.toLower then matchCI ps cs else none

/-- Case-sensitive literal match: strip pat from the front of the input. -/
def matchCS : List Char → List Char → Option (List Char)
  | [], l => some l
  | _ :: _, [] => none
  | p :: ps, c :: cs => if p = c then matchCS ps cs else none

/-! ## Exponent and root section of calculateAnswer
(src/src/components/ModuleSelector.jsx)

These checks are not guarded by an operation tag, so for the modelled
operation tags (logic patterns and fractions, whose guarded blocks come
earlier and do not fire) they are the first live code of
calculateAnswer. -/

/-- Value of one superscript digit character, with the JS object-lookup
fallback of 0 for anything else. -/
def supDigitVal (c : Char) : ℕ :=
  if c = '¹' then 1 else if c = '²' then 2 else if c = '³' then 3
  else if c = '⁴' then 4 else if c = '⁵' then 5 else if c = '⁶' then 6
  else if c = '⁷' then 7 else if c = '⁸' then 8 else if c = '⁹' then 9
  else 0

/-- Membership in the superscript digit class of the source's regexes. -/
def isSupChar (c : Char) : Bool :=
  c = '⁰' || c = '¹' || c = '²' || c = '³' || c = '⁴' ||
  c = '⁵' || c = '⁶' || c = '⁷' || c = '⁸' || c = '⁹'

/-- Decimal value of a run of superscript digits, accumulated the way the
source folds over the matched group. -/
def supVal (l : List Char) : ℕ := l.foldl (fun e c => e * 10 + supDigitVal c) 0

/-- Value of Math.sqrt followed by the integer test and two-decimal
rounding of the source, idealized to exact real square roots: a perfect
square returns its root, anything else returns round(100 * sqrt n)/100. -/
def jsSqrtRound2 (n : ℕ) : ℚ :=
  if Nat.sqrt n * Nat.sqrt n = n then (Nat.sqrt n : ℚ)
  else (((Nat.sqrt (40000 * n) + 1) / 2 : ℕ) : ℚ) / 100

/-- Integer cube root (floor). -/
def icbrt (n : ℕ) : ℕ :=
  ((List.range (n + 2)).filter (fun k => k * k * k ≤ n)).length - 1

/-- Value of Math.cbrt followed by the integer test and two-decimal
rounding, idealized to exact real cube roots. -/
def jsCbrtRound2 (n : ℕ) : ℚ :=
  if icbrt n * icbrt n * icbrt n = n then (icbrt n : ℚ)
  else (((icbrt (8000000 * n) + 1) / 2 : ℕ) : ℚ) / 100

/-- Square-root symbol pattern: a radical sign followed by digits. -/
def sqrtSymAt : List Char → Option ℚ
  | '√' :: r =>
    let p := readDigits r
    if p.1.isEmpty then none else some (jsSqrtRound2 (natOfDigits p.1))
  | _ => none

/-- Cube-root symbol pattern. -/
def cbrtSymAt : List Char → Option ℚ
  | '∛' :: r =>
    let p := readDigits r
    if p.1.isEmpty then none else some (jsCbrtRound2 (natOfDigits p.1))
  | _ => none

/-- Caret exponent pattern: digits, optional spaces, caret, optional
spaces, digits. -/
def caretAt (l : List Char) : Option ℚ :=
  let p := readDigits l
  if p.1.isEmpty then none
  else
    match p.2.dropWhile isWsChar with
    | '^' :: r2 =>
      let q := readDigits (r2.dropWhile isWsChar)
      if q.1.isEmpty then none
      else some ((natOfDigits p.1 : ℚ) ^ natOfDigits q.1)
    | _ => none

/-- Superscript exponent pattern: digits immediately followed by
superscript digits. -/
def superAt (l : List Char) : Option ℚ :=
  let p := readDigits l
  if p.1.isEmpty then none
  else
    match p.2 with
    | c :: _ =>
      if isSupChar c then
        some ((natOfDigits p.1 : ℚ) ^ supVal (p.2.takeWhile isSupChar))
      else none
    | [] => none

/-- Textual power pattern: digits, optional spaces, the case-insensitive
words "to the power ", an optional "of" with trailing spaces, digits. -/
def powerWordAt (l : List Char) : Option ℚ :=
  let p := readDigits l
  if p.1.isEmpty then none
  else
    match matchCI "to the power ".data (p.2.dropWhile isWsChar) with
    | none => none
    | some r3 =>
      let withOf := (matchCI "of".data r3).bind fun r4 =>
        let q := readDigits (r4.dropWhile isWsChar)
        if q.1.isEmpty then none else some (natOfDigits q.1)
      match withOf with
      | some e => some ((natOfDigits p.1 : ℚ) ^ e)
      | none =>
        let q := readDigits r3
        if q.1.isEmpty then none else some ((natOfDigits p.1 : ℚ) ^ natOfDigits q.1)

/-- Textual square-root pattern, case-insensitive. -/
def sqrtWordAt (l : List Char) : Option ℚ :=
  match matchCI "square root ".data l with
  | none => none
  | some r =>
    let withOf := (matchCI "of".data r).bind fun r2 =>
      let q := readDigits (r2.dropWhile isWsChar)
      if q.1.isEmpty then none else some (natOfDigits q.1)
    match withOf with
    | some n => some (jsSqrtRound2 n)
    | none =>
      let q := readDigits r
      if q.1.isEmpty then none else some (jsSqrtRound2 (natOfDigits q.1))

/-- Textual cube-root pattern, case-insensitive. -/
def cbrtWordAt (l : List Char) : Option ℚ :=
  match matchCI "cube root ".data l with
  | none => none
  | some r =>
    let withOf := (matchCI "of".data r).bind fun r2 =>
      let q := readDigits (r2.dropWhile isWsChar)
      if q.1.isEmpty then none else some (natOfDigits q.1)
    match withOf with
    | some n => some (jsCbrtRound2 n)
    | none =>
      let q := readDigits r
      if q.1.isEmpty then none else some (jsCbrtRound2 (natOfDigits q.1))

/-- Exponent multiplication pattern: base and superscript exponent, a
times sign, base and superscript exponent; same bases add exponents.
In the source this check sits after the plain superscript pattern, whose
match is a prefix of any match of this one, so this arm is unreachable;
it is kept for fidelity. -/
def expMulAt (l : List Char) : Option ℚ :=
  let p := readDigits l
  if p.1.isEmpty then none
  else
    let e1 := p.2.takeWhile isSupChar
    if e1.isEmpty then none
    else
      match (p.2.dropWhile isSupChar).dropWhile isWsChar with
      | c :: r3 =>
        if c = '×' || c = 'x' then
          let q := readDigits (r3.dropWhile isWsChar)
          if q.1.isEmpty then none
          else
            let e2 := q.2.takeWhile isSupChar
            if e2.isEmpty then none
            else
              let b1 := natOfDigits p.1
              let b2 := natOfDigits q.1
              if b1 = b2 then some ((b1 : ℚ) ^ (supVal e1 + supVal e2))
              else some ((b1 : ℚ) ^ supVal e1 * (b2 : ℚ) ^ supVal e2)
        else none
      | [] => none

/-- The unguarded exponent-and-root section of calculateAnswer, with its
checks in source order; the first matching pattern returns its value. -/
def expSection (q : List Char) : Option ℚ :=
  (scanFirst sqrtSymAt q) <|> (scanFirst cbrtSymAt q) <|>
  (scanFirst caretAt q) <|> (scanFirst superAt q) <|>
  (scanFirst powerWordAt q) <|> (scanFirst sqrtWordAt q) <|>
  (scanFirst cbrtWordAt q) <|> (scanFirst expMulAt q)

/-! ## Logic-pattern branch of calculateAnswer -/

/-- Position-local test for the letter-sequence pattern: letter, comma,
optional spaces, letter, comma, optional spaces, letter. -/
def letterTripleAt : List Char → Bool
  | c1 :: ',' :: r =>
    c1.isAlpha &&
    (match r.dropWhile isWsChar with
     | c2 :: ',' :: r2 =>
       c2.isAlpha &&
       (match r2.dropWhile isWsChar with
        | c3 :: _ => c3.isAlpha
        | [] => false)
     | _ => false)
  | _ => false

/-- Whole-string test for the letter-sequence pattern. -/
def letterTripleTest (q : List Char) : Bool := anyTail letterTripleAt q

/-- Letter prediction of the source: it collects every letter of the
question text, takes the gap between the first two (uppercased), adds it
to the last letter, and returns that character when its code is at most
90; otherwise, or when fewer than two letters exist, it returns the
default letter E. -/
def letterPredict (letters : List Char) : Char :=
  if 2 ≤ letters.length then
    let first := (letters.getD 0 'A').toUpper
    let second := (letters.getD 1 'A').toUpper
    let lastL := (letters.getLast?.getD 'A').toUpper
    let nextCode : ℤ := (lastL.toNat : ℤ) + ((second.toNat : ℤ) - (first.toNat : ℤ))
    if nextCode ≤ 90 then Char.ofNat nextCode.toNat else 'E'
  else 'E'

/-- The ten hardcoded literal numeric sequences checked, in source order,
before the generic numeric pattern detection. -/
def literalSeqHit (q : List Char) : Option ℚ :=
  if containsSeq "2, 4, 6, 8".data q then some 10
  else if containsSeq "1, 1, 2, 3, 5, 8".data q then some 13
  else if containsSeq "5, 5, 10, 15, 25".data q then some 40
  else if containsSeq "5, 10, 15, ___".data q || containsSeq "5, 10, 15, _,".data q then some 20
  else if containsSeq "1, 4, 9, 16".data q then some 25
  else if containsSeq "10, 20, 30, 40".data q then some 50
  else if containsSeq "3, 6, 9, 12".data q then some 15
  else if containsSeq "1, 3, 5, 7".data q then some 9
  else if containsSeq "2, 4, 8, 16".data q then some 32
  else if containsSeq "1, 4, 7, 10".data q then some 13
  else none

/-- One comma-number group of the sequence regex: optional spaces, a
comma, optional spaces, digits.  Returns the consumed characters and the
rest. -/
def commaGroup (l : List Char) : Option (List Char × List Char) :=
  let w1 := l.takeWhile isWsChar
  match l.dropWhile isWsChar with
  | ',' :: r2 =>
    let w2 := r2.takeWhile isWsChar
    let p := readDigits (r2.dropWhile isWsChar)
    if p.1.isEmpty then none
    else some (w1 ++ ',' :: (w2 ++ p.1), p.2)
  | _ => none

/-- Greedily consume comma-number groups, counting them (fuel-driven; each
group consumes at least one character, so fuel equal to the input length
suffices and the greedy repetition of the regex is reproduced). -/
def commaGroups : ℕ → List Char → List Char × ℕ × List Char
  | 0, l => ([], 0, l)
  | fuel + 1, l =>
    match commaGroup l with
    | none => ([], 0, l)
    | some (cs, rest) =>
      let p := commaGroups fuel rest
      (cs ++ p.1, p.2.1 + 1, p.2.2)

/-- Position-local match of the sequence regex: digits followed by at
least two comma-number groups; the matched substring is returned. -/
def commaRunAt (l : List Char) : Option (List Char) :=
  let p := readDigits l
  if p.1.isEmpty then none
  else
    let g := commaGroups p.2.length p.2
    if 2 ≤ g.2.1 then some (p.1 ++ g.1) else none

/-- Leftmost match of the sequence regex over the question text: the
maximal contiguous comma-separated run of at least three integers. -/
def findCommaRun (q : List Char) : Option (List Char) := scanFirst commaRunAt q

/-- Fibonacci-likeness check of the source: from the third element on,
every element is the sum of the two before it. -/
def isFibLike : List ℕ → Bool
  | a :: b :: c :: t => (a + b == c) && isFibLike (b :: c :: t)
  | _ => true

/-- Geometric loop of the source: walking the tail, every predecessor is
nonzero and every quotient equals the given ratio. -/
def geoLoop (r : ℚ) : ℚ → List ℚ → Bool
  | _, [] => true
  | prev, x :: t => (!(prev == 0)) && (x / prev == r) && geoLoop r x t

/-- Casts of a natural-number list into the rationals. -/
def ratsOfNat (l : List ℕ) : List ℚ := l.map (fun (n : ℕ) => (n : ℚ))

/-- Casts of a natural-number list into the integers. -/
def intsOfNat (l : List ℕ) : List ℤ := l.map (fun (n : ℕ) => (n : ℤ))

/-- Consecutive differences of an integer list. -/
def diffsZ : List ℤ → List ℤ
  | a :: b :: t => (b - a) :: diffsZ (b :: t)
  | _ => []

/-- Nonempty and all elements equal to the head: the quadratic test the
source applies to the second differences. -/
def allEqHead : List ℤ → Bool
  | [] => false
  | d :: t => t.all (· == d)

/-- Numeric cascade of the source's logic-pattern branch on the extracted
numbers: Fibonacci-like, then geometric (with the source's extra guards
of a nonzero first element and a ratio different from 1), then constant
second difference, else the last difference added to the last term. -/
def codeSequencePredict (nums : List ℕ) : ℚ :=
  match nums with
  | a :: b :: c :: t =>
    let l := a :: b :: c :: t
    let rev := l.reverse
    let lastN := rev.getD 0 0
    let secondLastN := rev.getD 1 0
    if isFibLike l then ((lastN + secondLastN : ℕ) : ℚ)
    else
      let ratio : ℚ := (b : ℚ) / (a : ℚ)
      if (!(a == 0)) && (!(ratio == 1)) &&
          geoLoop ratio (b : ℚ) (ratsOfNat (c :: t)) then
        (lastN : ℚ) * ratio
      else
        let ds := diffsZ (intsOfNat l)
        let ds2 := diffsZ ds
        if allEqHead ds2 then
          (((lastN : ℤ) + (ds.getLast?.getD 0 + ds2.headD 0)) : ℚ)
        else
          (((lastN : ℤ) + ((lastN : ℤ) - (secondLastN : ℤ))) : ℚ)
  | _ => 0

/-- Specification-side cascade, following the words of the spec: test in
order Fibonacci-like (each term is the sum of the two prior terms, exact
match across the whole run), then geometric (a constant ratio across the
whole run: every consecutive quotient is defined, that is has a nonzero
denominator, and equals the first quotient; the next term is the last
term times the ratio), then quadratic (constant second difference), else
arithmetic (the last difference added to the last term). -/
def specSequencePredict (nums : List ℕ) : ℚ :=
  match nums with
  | a :: b :: c :: t =>
    let l := a :: b :: c :: t
    let rev := l.reverse
    let lastN := rev.getD 0 0
    let secondLastN := rev.getD 1 0
    if isFibLike l then ((lastN + secondLastN : ℕ) : ℚ)
    else
      let ratio : ℚ := (b : ℚ) / (a : ℚ)
      if (!(a == 0)) && geoLoop ratio (b : ℚ) (ratsOfNat (c :: t)) then
        (lastN : ℚ) * ratio
      else
        let ds := diffsZ (intsOfNat l)
        let ds2 := diffsZ ds
        if allEqHead ds2 then
          (((lastN : ℤ) + (ds.getLast?.getD 0 + ds2.headD 0)) : ℚ)
        else
          (((lastN : ℤ) + ((lastN : ℤ) - (secondLastN : ℤ))) : ℚ)
  | _ => 0

/-- Result type of calculateAnswer: a number, a single-letter string, or
the null of an underivable answer. -/
inductive ExtractResult where
  | num : ℚ → ExtractResult
  | chr : Char → ExtractResult
  | nullAns : ExtractResult
  deriving DecidableEq, Repr

/-- Logic-pattern branch of calculateAnswer: letter sequences first, then
the hardcoded literal table, then the numeric cascade on the numbers of
the leftmost comma-separated run (or, when no run exists, on all digits
of the text); with fewer than three numbers the branch falls through the
generic pattern table (which has no entry for this tag) and the story
fallback (whose switch has no case for it) to null. -/
def calcLogicBranch (q : List Char) : ExtractResult :=
  if letterTripleTest q then .chr (letterPredict (q.filter Char.isAlpha))
  else
    match literalSeqHit q with
    | some v => .num v
    | none =>
      let nums := (match findCommaRun q with
        | some m => digitRuns m
        | none => digitRuns q).map natOfDigits
      if 3 ≤ nums.length then .num (codeSequencePredict nums)
      else .nullAns

/-! ## Fractions branch of calculateAnswer -/

/-- Position-local match of the two-fraction pattern: digits, slash,
digits, a plus or minus operator, digits, slash, digits, with optional
spaces between the tokens. -/
def fracTwoAt (l : List Char) : Option (ℕ × ℕ × Char × ℕ × ℕ) :=
  let pa := readDigits l
  if pa.1.isEmpty then none
  else
    match pa.2.dropWhile isWsChar with
    | '/' :: r2 =>
      let pb := readDigits (r2.dropWhile isWsChar)
      if pb.1.isEmpty then none
      else
        match pb.2.dropWhile isWsChar with
        | opc :: r4 =>
          if opc = '+' || opc = '-' then
            let pc := readDigits (r4.dropWhile isWsChar)
            if pc.1.isEmpty then none
            else
              match pc.2.dropWhile isWsChar with
              | '/' :: r6 =>
                let pd := readDigits (r6.dropWhile isWsChar)
                if pd.1.isEmpty then none
                else some (natOfDigits pa.1, natOfDigits pb.1, opc,
                  natOfDigits pc.1, natOfDigits pd.1)
              | _ => none
          else none
        | [] => none
    | _ => none

/-- Position-local match of the scale pattern: digits, slash, digits,
then the literal word of (case-sensitively) or a times sign, optional
spaces, digits. -/
def fracOfAt (l : List Char) : Option (ℕ × ℕ × ℕ) :=
  let pn := readDigits l
  if pn.1.isEmpty then none
  else
    match pn.2.dropWhile isWsChar with
    | '/' :: r2 =>
      let pd := readDigits (r2.dropWhile isWsChar)
      if pd.1.isEmpty then none
      else
        let afterB := pd.2.dropWhile isWsChar
        let cont := fun (r4 : List Char) =>
          let pv := readDigits (r4.dropWhile isWsChar)
          if pv.1.isEmpty then none
          else some (natOfDigits pn.1, natOfDigits pd.1, natOfDigits pv.1)
        match matchCS "of".data afterB with
        | some r4 => cont r4
        | none =>
          match afterB with
          | '×' :: r4 => cont r4
          | _ => none
    | _ => none

/-- Position-local match of the first reverse pattern: digits, slash,
digits, then the case-insensitive words of a number is, then digits. -/
def fracRevAt (l : List Char) : Option (ℕ × ℕ × ℕ) :=
  let pn := readDigits l
  if pn.1.isEmpty then none
  else
    match pn.2.dropWhile isWsChar with
    | '/' :: r2 =>
      let pd := readDigits (r2.dropWhile isWsChar)
      if pd.1.isEmpty then none
      else
        (matchCI "of".data (pd.2.dropWhile isWsChar)).bind fun r3 =>
        (matchCI "a".data (r3.dropWhile isWsChar)).bind fun r4 =>
        (matchCI "number".data (r4.dropWhile isWsChar)).bind fun r5 =>
        (matchCI "is".data (r5.dropWhile isWsChar)).bind fun r6 =>
        let pr := readDigits (r6.dropWhile isWsChar)
        if pr.1.isEmpty then none
        else some (natOfDigits pn.1, natOfDigits pd.1, natOfDigits pr.1)
    | _ => none

/-- Position-local match of the second reverse pattern: digits, slash,
digits, of what or which number, is or equals or an equals sign, digits;
words case-insensitive. -/
def fracRev2At (l : List Char) : Option (ℕ × ℕ × ℕ) :=
  let pn := readDigits l
  if pn.1.isEmpty then none
  else
    match pn.2.dropWhile isWsChar with
    | '/' :: r2 =>
      let pd := readDigits (r2.dropWhile isWsChar)
      if pd.1.isEmpty then none
      else
        (matchCI "of".data (pd.2.dropWhile isWsChar)).bind fun r3 =>
        (match matchCI "what".data (r3.dropWhile isWsChar) with
         | some r4 => some r4
         | none => matchCI "which".data (r3.dropWhile isWsChar)).bind fun r4 =>
        (matchCI "number".data (r4.dropWhile isWsChar)).bind fun r5 =>
        (match matchCI "is".data (r5.dropWhile isWsChar) with
         | some r6 => some r6
         | none =>
           match matchCI "equals".data (r5.dropWhile isWsChar) with
           | some r6 => some r6
           | none => matchCS "=".data (r5.dropWhile isWsChar)).bind fun r6 =>
        let pr := readDigits (r6.dropWhile isWsChar)
        if pr.1.isEmpty then none
        else some (natOfDigits pn.1, natOfDigits pd.1, natOfDigits pr.1)
    | _ => none

/-- Fractions branch of calculateAnswer, in source order: the two-fraction
plus-or-minus pattern (cross-multiplied combine), the scale pattern, the
two reverse patterns, then the naive ratio of the first two integers in
the text; with fewer than two integers every later fallback of the source
returns null for this tag. -/
def calcFractionsBranch (q : List Char) : ExtractResult :=
  match scanFirst fracTwoAt q with
  | some (a, b, opc, c, d) =>
    if opc = '+' then .num (((a : ℚ) * d + (c : ℚ) * b) / ((b : ℚ) * d))
    else .num (((a : ℚ) * d - (c : ℚ) * b) / ((b : ℚ) * d))
  | none =>
    match scanFirst fracOfAt q with
    | some (n, d, v) => .num (((n : ℚ) / d) * v)
    | none =>
      match scanFirst fracRevAt q with
      | some (n, d, r) => .num (((r : ℚ) * d) / n)
      | none =>
        match scanFirst fracRev2At q with
        | some (n, d, r) => .num (((r : ℚ) * d) / n)
        | none =>
          match (digitRuns q).map natOfDigits with
          | n0 :: n1 :: _ => .num ((n0 : ℚ) / n1)
          | _ => .nullAns

/-- The operation tags whose extraction branches are modelled. -/
inductive Op where
  | logic_patterns
  | fractions
  deriving DecidableEq, Repr

/-- Model of calculateAnswer from ModuleSelector.jsx for the modelled
operation tags.  For these tags the earlier tag-guarded blocks (algebra,
geometry, statistics, calculus) are skipped, so the unguarded exponent
and root section runs first, followed by the tag's own branch. -/
def calculateAnswer (q : List Char) (op : Op) : ExtractResult :=
  match expSection q with
  | some v => .num v
  | none =>
    match op with
    | .logic_patterns => calcLogicBranch q
    | .fractions => calcFractionsBranch q

/-! ## Input normalizer (parseFractionInput in ModuleSelector.jsx) -/

/-- Right trim of trailing whitespace. -/
def trimRightWs (l : List Char) : List Char :=
  l.foldr (fun c acc => if acc.isEmpty && isWsChar c then [] else c :: acc) []

/-- Model of String.prototype.trim. -/
def trimChars (l : List Char) : List Char := trimRightWs (l.dropWhile isWsChar)

/-- Anchored match of the mixed-number pattern: digits, whitespace,
digits, optional whitespace, slash, optional whitespace, digits, end. -/
def parseMixed (l : List Char) : Option (ℕ × ℕ × ℕ) :=
  let pw := readDigits l
  if pw.1.isEmpty then none
  else
    match pw.2 with
    | c :: r2 =>
      if isWsChar c then
        let pn := readDigits (r2.dropWhile isWsChar)
        if pn.1.isEmpty then none
        else
          let r5 := pn.2.dropWhile isWsChar
          if r5.headD ' ' = '/' then
            let pd := readDigits (r5.tail.dropWhile isWsChar)
            if pd.1.isEmpty then none
            else if pd.2.isEmpty then
              some (natOfDigits pw.1, natOfDigits pn.1, natOfDigits pd.1)
            else none
          else none
      else none
    | [] => none

/-- Anchored match of the simple-fraction pattern: an optional minus sign,
digits, optional whitespace, slash, optional whitespace, digits, end. -/
def parseSimple (l : List Char) : Option (Bool × ℕ × ℕ) :=
  let neg := l.headD ' ' = '-'
  let l1 := if neg then l.tail else l
  let pn := readDigits l1
  if pn.1.isEmpty then none
  else
    let r1 := pn.2.dropWhile isWsChar
    if r1.headD ' ' = '/' then
      let pd := readDigits (r1.tail.dropWhile isWsChar)
      if pd.1.isEmpty then none
      else if pd.2.isEmpty then some (neg, natOfDigits pn.1, natOfDigits pd.1)
      else none
    else none

/-- Exponent part of a float literal; an incomplete exponent is ignored,
as parseFloat ignores any unparsable suffix. -/
def floatExpOf (t : List Char) : ℤ :=
  match t with
  | '-' :: t2 =>
    let p := readDigits t2
    if p.1.isEmpty then 0 else -(natOfDigits p.1 : ℤ)
  | '+' :: t2 =>
    let p := readDigits t2
    if p.1.isEmpty then 0 else (natOfDigits p.1 : ℤ)
  | _ =>
    let p := readDigits t
    if p.1.isEmpty then 0 else (natOfDigits p.1 : ℤ)

/-- Model of JS parseFloat on decimal literals: leading whitespace, an
optional sign, digits with an optional fractional part, an optional
exponent; the longest valid prefix is converted and anything after it is
ignored; no digits at all gives NaN, modelled as none.  (The special
Infinity literal is outside the model.) -/
def jsParseFloat (l : List Char) : Option ℚ :=
  let l1 := l.dropWhile isWsChar
  let sp : ℚ × List Char :=
    match l1 with
    | '-' :: t => (-1, t)
    | '+' :: t => (1, t)
    | _ => (1, l1)
  let pi := readDigits sp.2
  let pf : List Char × List Char :=
    match pi.2 with
    | '.' :: t => readDigits t
    | _ => ([], pi.2)
  if pi.1.isEmpty && pf.1.isEmpty then none
  else
    let mant : ℚ := (natOfDigits (pi.1 ++ pf.1) : ℚ) / (10 : ℚ) ^ pf.1.length
    let e : ℤ :=
      match pf.2 with
      | 'e' :: t => floatExpOf t
      | 'E' :: t => floatExpOf t
      | _ => 0
    some (sp.1 * mant * (10 : ℚ) ^ e)

/-- Model of parseFractionInput from ModuleSelector.jsx: trim; empty input
is NaN; a mixed number gives whole plus fraction (NaN on a zero
denominator); a simple fraction gives numerator over denominator (NaN on
a zero denominator); anything else is handed to parseFloat. -/
def parseFractionInput (input : List Char) : Option ℚ :=
  let trimmed := trimChars input
  if trimmed.isEmpty then none
  else
    match parseMixed trimmed with
    | some (w, n, d) =>
      if d ≠ 0 then some ((w : ℚ) + (n : ℚ) / (d : ℚ)) else none
    | none =>
      match parseSimple trimmed with
      | some (neg, n, d) =>
        if d ≠ 0 then some ((if neg then -(n : ℚ) else (n : ℚ)) / (d : ℚ)) else none
      | none => jsParseFloat trimmed

/-! ## Claim-side definitions for the corrected claims -/

/-- Claim-side letter prediction: apply the gap between the given first
two letters of the sequence to its last letter, clamped at Z. -/
def claimLetterClamp (first second lastL : Char) : Char :=
  let code : ℤ := (lastL.toNat : ℤ) + ((second.toNat : ℤ) - (first.toNat : ℤ))
  if code ≤ 90 then Char.ofNat code.toNat else 'Z'

/-- Amended-claim letter prediction: the gap between the first two letters
appearing anywhere in the question text, applied to the last letter of
the text, with the default letter E when the result would pass Z (or
fewer than two letters exist). -/
def textLetterPredict (letters : List Char) : Char :=
  match letters with
  | f :: s :: _ =>
    let gap : ℤ := (s.toUpper.toNat : ℤ) - (f.toUpper.toNat : ℤ)
    let lastL := (letters.getLast?.getD 'A').toUpper
    let code : ℤ := (lastL.toNat : ℤ) + gap
    if code ≤ 90 then Char.ofNat code.toNat else 'E'
  | _ => 'E'

/-- Claim-side two-fraction combination for all four operators: addition
and subtraction cross-multiply, multiplication multiplies numerators and
denominators, division cross-multiplies the other way. -/
def claimFracCross (a b c d : ℕ) (opc : Char) : ℚ :=
  if opc = '+' then ((a : ℚ) * d + (c : ℚ) * b) / ((b : ℚ) * d)
  else if opc = '-' then ((a : ℚ) * d - (c : ℚ) * b) / ((b : ℚ) * d)
  else if opc = '×' then ((a : ℚ) * c) / ((b : ℚ) * d)
  else ((a : ℚ) * d) / ((b : ℚ) * c)

/-- States reachable from a given initial challenge document by any
interleaving of successful joins and answer submissions. -/
inductive ChallengeReachable (init : Challenge) : Challenge → Prop where
  | refl : ChallengeReachable init init
  | join {c c' : Challenge} {u : String} :
      ChallengeReachable init c → joinChallenge c u = some c' →
      ChallengeReachable init c'
  | submit {c : Challenge} (role : Role) (a : CAnswer) :
      ChallengeReachable init c →
      ChallengeReachable init (submitChallengeAnswer c role a)

/-- A five-question challenge document used as a concrete test state. -/
def cexChallenge0 : Challenge :=
  createChallenge "alice" ["q1", "q2", "q3", "q4", "q5"]

/-- A fixed answer payload for the concrete challenge runs. -/
def cexAnswer : CAnswer := ⟨"1", true, 0⟩

/-- Submit the fixed answer in the given role. -/
def cexSubmit (role : Role) (c : Challenge) : Challenge :=
  submitChallengeAnswer c role cexAnswer

/-- The state of the concrete challenge after the creator submits five
answers and the opponent submits four, with no join ever happening. -/
def cexChallenge9 : Challenge :=
  cexSubmit .opponent (cexSubmit .opponent (cexSubmit .opponent (cexSubmit .opponent
    (cexSubmit .creator (cexSubmit .creator (cexSubmit .creator (cexSubmit .creator
      (cexSubmit .creator cexChallenge0))))))))

/-! # Theorems -/

/-- C5: computeXP returns 0 when the answer is incorrect, and otherwise
10 plus the streak bonus min(streak times 2, 20) plus the tier bonus,
which is 0 for Very Easy and Easy, 5 for Medium, 10 for Hard and 15 for
Very Hard. -/
theorem C5_computeXP_spec (streak : ℕ) :
    calculateXPEarned false streak "Very Easy" = 0 ∧
    calculateXPEarned false streak "Easy" = 0 ∧
    calculateXPEarned false streak "Medium" = 0 ∧
    calculateXPEarned false streak "Hard" = 0 ∧
    calculateXPEarned false streak "Very Hard" = 0 ∧
    calculateXPEarned true streak "Very Easy" = 10 + min (streak * 2) 20 + 0 ∧
    calculateXPEarned true streak "Easy" = 10 + min (streak * 2) 20 + 0 ∧
    calculateXPEarned true streak "Medium" = 10 + min (streak * 2) 20 + 5 ∧
    calculateXPEarned true streak "Hard" = 10 + min (streak * 2) 20 + 10 ∧
    calculateXPEarned true streak "Very Hard" = 10 + min (streak * 2) 20 + 15 := by
  refine ⟨rfl, rfl, rfl, rfl, rfl, ?_, ?_, ?_, ?_, ?_⟩ <;>
    simp [calculateXPEarned, DIFFICULTY_BONUS]

/-- C6: when the persistence write inside awardXP fails, the caller
receives the safe fallback built from the state read before the
attempted update: xpEarned 0, leveledUp false, and totalXP, level, daily
question count and daily goal exactly as read; the catch clause makes
the function total, so the failure never escapes as an exception. -/
theorem C6_awardXP_write_failure (current : UserXPState) (today : String)
    (correct : Bool) (streak : ℕ) (difficulty : String) :
    awardXP current today correct streak difficulty false =
      { xpEarned := 0
        totalXP := current.totalXP
        level := current.level
        leveledUp := false
        dailyQuestions := current.dailyQuestions
        dailyGoal := current.dailyGoal } := rfl

/-- C9 counterexample: on the history of three correct answers followed
by one incorrect answer the streak computed by getUserStats is 0, not
the claimed 1, because the streak counts consecutive correct answers
from the most recent end of the history. -/
theorem C9_streak_counterexample :
    (getUserStats [⟨true, "addition"⟩, ⟨true, "addition"⟩, ⟨true, "addition"⟩,
      ⟨false, "subtraction"⟩]).streak = 0 ∧ (0 : ℕ) ≠ 1 := by
  constructor
  · rfl
  · decide

/-- C9 amended: on the four-answer history whose single incorrect
(subtraction) answer is third and whose last answer is correct — the
history of the repository's own unit test — getUserStats returns four
total questions, accuracy 75, streak 1, and the weak areas sorted
ascending by accuracy with the 0-percent subtraction operation first. -/
theorem C9_stats_amended :
    getUserStats [⟨true, "addition"⟩, ⟨true, "addition"⟩, ⟨false, "subtraction"⟩,
      ⟨true, "addition"⟩] =
      { totalQuestions := 4
        accuracy := 75
        streak := 1
        weakAreas := [⟨"subtraction", 0, 1⟩, ⟨"addition", 100, 3⟩] } := by
  with_unfolding_all decide

/-- C10: for grade KG-1 the classifier can never return the tier
Very Easy, because the KG-1 veryEasy boundary is 0 and the accuracy is
never negative (it is taken as 0 when the total is 0); the lowest tier
actually produced, witnessed at zero answers, is Easy. -/
theorem C10_KG1_no_very_easy (correct total : ℕ) :
    (calculateGradeAwareDifficulty correct total "KG-1").difficulty ≠ "Very Easy" ∧
    (calculateGradeAwareDifficulty 0 0 "KG-1").difficulty = "Easy" := by
  constructor
  · have h0 : (0 : ℚ) ≤ accuracyOf correct total := by
      unfold accuracyOf
      split
      · positivity
      · exact le_refl 0
    unfold calculateGradeAwareDifficulty getDifficultyThresholdsForGrade
    simp only [reduceIte]
    split_ifs with h1 h2 h3 h4 <;> first
      | (simp_all; linarith)
      | simp_all
  · with_unfolding_all decide

/-- Every grade's threshold table is ascending on the four boundaries the
tier selection compares against. -/
theorem thresholds_sorted (grade : String) :
    (getDifficultyThresholdsForGrade grade).veryEasy ≤
      (getDifficultyThresholdsForGrade grade).easy ∧
    (getDifficultyThresholdsForGrade grade).easy ≤
      (getDifficultyThresholdsForGrade grade).medium ∧
    (getDifficultyThresholdsForGrade grade).medium ≤
      (getDifficultyThresholdsForGrade grade).hard := by
  unfold getDifficultyThresholdsForGrade
  split_ifs <;> norm_num

/-- C7: for a fixed grade the classifier is monotone in accuracy: if one
pair of counts has accuracy at most another's, the tier it is assigned
is at most the other's tier, over the order Very Easy < Easy < Medium <
Hard < Very Hard. -/
theorem C7_classify_monotone (grade : String) (c1 t1 c2 t2 : ℕ)
    (h : accuracyOf c1 t1 ≤ accuracyOf c2 t2) :
    tierRank (calculateGradeAwareDifficulty c1 t1 grade).difficulty ≤
      tierRank (calculateGradeAwareDifficulty c2 t2 grade).difficulty := by
  obtain ⟨h1, h2, h3⟩ := thresholds_sorted grade
  unfold calculateGradeAwareDifficulty
  dsimp only
  split_ifs <;> (dsimp only; first
    | decide
    | (exfalso; linarith))

/-- Witness for C7 at grade 4-5 with accuracies 1/4 and 3/4. -/
theorem C7_classify_monotone_witness :
    accuracyOf 1 4 ≤ accuracyOf 3 4 ∧
    tierRank (calculateGradeAwareDifficulty 1 4 "4-5").difficulty ≤
      tierRank (calculateGradeAwareDifficulty 3 4 "4-5").difficulty :=
  ⟨by with_unfolding_all decide,
   C7_classify_monotone "4-5" 1 4 3 4 (by with_unfolding_all decide)⟩

/-- Submitting an answer never lowers the challenge status along the order
Waiting < Active < Completed. -/
theorem submit_rank_mono (c : Challenge) (role : Role) (a : CAnswer) :
    statusRank c.status ≤ statusRank (submitChallengeAnswer c role a).status := by
  cases role <;>
    (dsimp only [submitChallengeAnswer]; split) <;>
    (cases c.status <;> decide)

/-- A successful join happens only on a waiting challenge and puts it in
the active state. -/
theorem join_shape (c : Challenge) (u : String) (c' : Challenge)
    (h : joinChallenge c u = some c') :
    c.status = CStatus.waiting ∧ c'.status = CStatus.active := by
  unfold joinChallenge at h
  split_ifs at h with h1 h2
  cases h
  exact ⟨h1, rfl⟩

/-- Submitting never produces the active state out of nowhere: if the
result is active the challenge already was. -/
theorem submit_active_preserve (c : Challenge) (role : Role) (a : CAnswer) :
    (submitChallengeAnswer c role a).status = CStatus.active →
    c.status = CStatus.active := by
  cases role <;> (dsimp only [submitChallengeAnswer]; split)
  · intro hcontra; cases hcontra
  · exact id
  · intro hcontra; cases hcontra
  · exact id

/-- Inductive invariant of the challenge lifecycle: every reachable state
keeps the shared question set of its creation, and is completed exactly
when both answer arrays have reached the question count. -/
theorem challenge_completed_inv (cid : String) (qs : List String) (hqs : 0 < qs.length)
    {s : Challenge} (h : ChallengeReachable (createChallenge cid qs) s) :
    s.questions = qs ∧
    (s.status = CStatus.completed ↔
      qs.length ≤ s.creatorAnswers.length ∧ qs.length ≤ s.opponentAnswers.length) := by
  induction h with
  | refl =>
    refine ⟨rfl, ?_⟩
    simp only [createChallenge, List.length_nil]
    constructor
    · intro hcontra; cases hcontra
    · intro ⟨hc, _⟩; omega
  | join hr hj ih =>
    obtain ⟨ihq, ihc⟩ := ih
    rename_i c c' u
    unfold joinChallenge at hj
    split_ifs at hj with h1 h2
    cases hj
    refine ⟨ihq, ?_⟩
    constructor
    · intro hcontra; cases hcontra
    · intro hlen
      have hcomp : c.status = CStatus.completed := ihc.mpr hlen
      rw [h1] at hcomp
      cases hcomp
  | submit role a hr ih =>
    obtain ⟨ihq, ihc⟩ := ih
    rename_i c
    have hlen1 : ∀ (l : List CAnswer) (x : CAnswer), (l ++ [x]).length = l.length + 1 := by
      intro l x; simp
    cases role
    case creator =>
      dsimp only [submitChallengeAnswer]
      refine ⟨ihq, ?_⟩
      rw [ihq, hlen1]
      split
      case isTrue hdone => exact iff_of_true rfl ⟨by omega, hdone.2⟩
      case isFalse hdone =>
        constructor
        · intro hcomp
          obtain ⟨ha, hb⟩ := ihc.mp hcomp
          exact absurd ⟨by omega, hb⟩ hdone
        · intro hcontra
          exact absurd hcontra hdone
    case opponent =>
      dsimp only [submitChallengeAnswer]
      refine ⟨ihq, ?_⟩
      rw [ihq, hlen1]
      split
      case isTrue hdone => exact iff_of_true rfl ⟨hdone.2, by omega⟩
      case isFalse hdone =>
        constructor
        · intro hcomp
          obtain ⟨ha, hb⟩ := ihc.mp hcomp
          exact absurd ⟨by omega, ha⟩ hdone
        · intro hcontra
          exact absurd ⟨hcontra.2, hcontra.1⟩ hdone

/-- C8 amended: over any sequence of create, successful-join and submit
operations, the status never reverts along Waiting < Active < Completed
(each submit keeps or raises it, a join succeeds only from Waiting and
is the only way to enter Active), and a challenge whose shared question
set has length 5 has status Completed exactly when both creatorAnswers
and opponentAnswers have reached length 5, regardless of the order in
which the two players' answers arrive.  (As the separate counterexample
shows, the status can pass directly from Waiting to Completed when both
players' answers are submitted without a join, so the claimed chain
Waiting to Active to Completed is not the only path.) -/
theorem C8_challenge_lifecycle (cid : String) (qs : List String) (h5 : qs.length = 5)
    (s : Challenge) (hr : ChallengeReachable (createChallenge cid qs) s) :
    (s.status = CStatus.completed ↔
      5 ≤ s.creatorAnswers.length ∧ 5 ≤ s.opponentAnswers.length) ∧
    (∀ role a, statusRank s.status ≤ statusRank (submitChallengeAnswer s role a).status) ∧
    (∀ u c', joinChallenge s u = some c' →
      s.status = CStatus.waiting ∧ c'.status = CStatus.active) ∧
    (∀ role a, (submitChallengeAnswer s role a).status = CStatus.active →
      s.status = CStatus.active) := by
  have hinv := challenge_completed_inv cid qs (by omega) hr
  refine ⟨?_, fun role a => submit_rank_mono s role a,
    fun u c' hj => join_shape s u c' hj,
    fun role a => submit_active_preserve s role a⟩
  rw [h5] at hinv
  exact hinv.2

/-- Witness for C8 at the freshly created five-question challenge. -/
theorem C8_challenge_lifecycle_witness :
    (createChallenge "alice" ["q1", "q2", "q3", "q4", "q5"]).status = CStatus.completed ↔
      5 ≤ (createChallenge "alice" ["q1", "q2", "q3", "q4", "q5"]).creatorAnswers.length ∧
      5 ≤ (createChallenge "alice" ["q1", "q2", "q3", "q4", "q5"]).opponentAnswers.length :=
  (C8_challenge_lifecycle "alice" ["q1", "q2", "q3", "q4", "q5"] rfl _
    ChallengeReachable.refl).1

/-- C8 counterexample to the claim as stated: after the creator submits
five answers and the opponent submits four, with no join, the concrete
five-question challenge still has status Waiting, and one further
opponent submit moves it directly to Completed — a transition from
Waiting to Completed that never passes through Active on a join. -/
theorem C8_waiting_to_completed_counterexample :
    cexChallenge9.status = CStatus.waiting ∧
    (cexSubmit Role.opponent cexChallenge9).status = CStatus.completed := by
  constructor
  · rfl
  · rfl

/-- A digit character is not whitespace. -/
theorem not_ws_of_digit {c : Char} (h : c.isDigit = true) : isWsChar c = false := by
  cases hb : isWsChar c
  · rfl
  · exfalso
    unfold isWsChar at hb
    simp only [Bool.or_eq_true, decide_eq_true_eq] at hb
    rcases hb with ((rfl | rfl) | rfl) | rfl <;> exact absurd h (by decide)

/-- Reading digits from a digit run followed by a non-digit splits at the
non-digit. -/
theorem readDigits_append (w : List Char) (hw : ∀ c ∈ w, c.isDigit = true)
    (c : Char) (hc : c.isDigit = false) (r : List Char) :
    readDigits (w ++ c :: r) = (w, c :: r) := by
  induction w with
  | nil => simp [readDigits, hc]
  | cons a t ih =>
    have ha : a.isDigit = true := hw a (List.mem_cons_self a t)
    simp only [List.cons_append, readDigits, ha, if_true, List.append_eq]
    rw [ih (fun x hx => hw x (List.mem_cons_of_mem a hx))]

/-- Reading digits from an all-digit list consumes it entirely. -/
theorem readDigits_all (w : List Char) (hw : ∀ c ∈ w, c.isDigit = true) :
    readDigits w = (w, []) := by
  induction w with
  | nil => rfl
  | cons a t ih =>
    have ha : a.isDigit = true := hw a (List.mem_cons_self a t)
    simp only [readDigits, ha, if_true]
    rw [ih (fun x hx => hw x (List.mem_cons_of_mem a hx))]

/-- A right trim does nothing when the final character is not
whitespace. -/
theorem trimRightWs_concat (l : List Char) (c : Char) (hc : isWsChar c = false) :
    trimRightWs (l ++ [c]) = l ++ [c] := by
  induction l with
  | nil => simp [trimRightWs, hc]
  | cons a t ih =>
    unfold trimRightWs at ih ⊢
    simp only [List.cons_append, List.foldr_cons]
    rw [ih]
    simp

/-- A trim does nothing when neither end is whitespace. -/
theorem trimChars_id (c : Char) (m : List Char) (e : Char)
    (hc : isWsChar c = false) (he : isWsChar e = false) :
    trimChars (c :: (m ++ [e])) = c :: (m ++ [e]) := by
  unfold trimChars
  rw [List.dropWhile_cons, if_neg (by simp [hc])]
  rw [show (c :: (m ++ [e])) = (c :: m) ++ [e] by simp]
  exact trimRightWs_concat (c :: m) e he

/-- The mixed-number matcher accepts digits, one space, digits, slash,
digits, and returns the three parsed values. -/
theorem parseMixed_shape (w n d : List Char)
    (hw0 : w ≠ []) (hn0 : n ≠ []) (hd0 : d ≠ [])
    (hw : ∀ c ∈ w, c.isDigit = true) (hn : ∀ c ∈ n, c.isDigit = true)
    (hd : ∀ c ∈ d, c.isDigit = true) :
    parseMixed (w ++ ' ' :: (n ++ '/' :: d)) =
      some (natOfDigits w, natOfDigits n, natOfDigits d) := by
  unfold parseMixed
  rw [readDigits_append w hw ' ' (by decide)]
  have hwE : w.isEmpty = false := by
    cases w
    · exact absurd rfl hw0
    · rfl
  simp only [hwE, Bool.false_eq_true, if_false]
  have hnchead : List.dropWhile isWsChar (n ++ '/' :: d) = n ++ '/' :: d := by
    cases n with
    | nil => exact absurd rfl hn0
    | cons nc nt =>
      rw [List.cons_append, List.dropWhile_cons,
        if_neg (by simp [not_ws_of_digit (hn nc (List.mem_cons_self nc nt))])]
  have hws : isWsChar ' ' = true := by decide
  simp only [hws, if_true, hnchead]
  rw [readDigits_append n hn '/' (by decide)]
  have hnE : n.isEmpty = false := by
    cases n
    · exact absurd rfl hn0
    · rfl
  simp only [hnE, Bool.false_eq_true, if_false]
  have hslash : List.dropWhile isWsChar ('/' :: d) = '/' :: d := by
    rw [List.dropWhile_cons, if_neg (by simp [isWsChar])]
  rw [hslash]
  simp only [List.headD_cons, List.tail_cons, reduceIte]
  have hdw : List.dropWhile isWsChar d = d := by
    cases d with
    | nil => rfl
    | cons dc dt =>
      rw [List.dropWhile_cons,
        if_neg (by simp [not_ws_of_digit (hd dc (List.mem_cons_self dc dt))])]
  rw [hdw, readDigits_all d hd]
  have hdE : d.isEmpty = false := by
    cases d
    · exact absurd rfl hd0
    · rfl
  simp [hdE]

/-- The mixed-number matcher rejects a plain fraction: after the leading
digits it requires whitespace, and a slash is not whitespace. -/
theorem parseMixed_none_on_simple (n d : List Char)
    (hn0 : n ≠ []) (hn : ∀ c ∈ n, c.isDigit = true) :
    parseMixed (n ++ '/' :: d) = none := by
  unfold parseMixed
  rw [readDigits_append n hn '/' (by decide)]
  have hnE : n.isEmpty = false := by
    cases n
    · exact absurd rfl hn0
    · rfl
  simp [hnE, isWsChar]

/-- The simple-fraction matcher accepts digits, slash, digits, and
returns the two parsed values with a positive sign. -/
theorem parseSimple_shape (n d : List Char)
    (hn0 : n ≠ []) (hd0 : d ≠ [])
    (hn : ∀ c ∈ n, c.isDigit = true) (hd : ∀ c ∈ d, c.isDigit = true) :
    parseSimple (n ++ '/' :: d) = some (false, natOfDigits n, natOfDigits d) := by
  obtain ⟨nc, nt, rfl⟩ := List.exists_cons_of_ne_nil hn0
  have hnc : nc.isDigit = true := hn nc (List.mem_cons_self nc nt)
  have hncneq : (nc = '-') = False := by
    simp only [eq_iff_iff, iff_false]
    intro hEq
    rw [hEq] at hnc
    exact absurd hnc (by decide)
  unfold parseSimple
  simp only [List.cons_append, List.headD_cons, hncneq, decide_False, if_false]
  have hrd := readDigits_append (nc :: nt) hn '/' (by decide) d
  rw [List.cons_append] at hrd
  rw [hrd]
  simp only [List.isEmpty_cons, Bool.false_eq_true, if_false]
  have hslash : List.dropWhile isWsChar ('/' :: d) = '/' :: d := by
    rw [List.dropWhile_cons, if_neg (by simp [isWsChar])]
  rw [hslash]
  simp only [List.headD_cons, List.tail_cons, reduceIte]
  have hdw : List.dropWhile isWsChar d = d := by
    cases d with
    | nil => rfl
    | cons dc dt =>
      rw [List.dropWhile_cons,
        if_neg (by simp [not_ws_of_digit (hd dc (List.mem_cons_self dc dt))])]
  rw [hdw, readDigits_all d hd]
  have hdE : d.isEmpty = false := by
    cases d
    · exact absurd rfl hd0
    · rfl
  simp [hdE]

/-- C4: the input normalizer recognizes, in order, a mixed number
W N/D giving W plus N over D, a simple fraction N/D giving N over D and
NaN when D is 0, and otherwise hands the trimmed input to the float
parser; empty input, and any input neither fraction-shaped nor parseable
as a float literal, gives NaN (modelled as none). -/
theorem C4_parseFractionInput_spec :
    (∀ w n d : List Char, w ≠ [] → n ≠ [] → d ≠ [] →
      (∀ c ∈ w, c.isDigit = true) → (∀ c ∈ n, c.isDigit = true) →
      (∀ c ∈ d, c.isDigit = true) → natOfDigits d ≠ 0 →
      parseFractionInput (w ++ ' ' :: (n ++ '/' :: d)) =
        some ((natOfDigits w : ℚ) + (natOfDigits n : ℚ) / (natOfDigits d : ℚ))) ∧
    (∀ n d : List Char, n ≠ [] → d ≠ [] →
      (∀ c ∈ n, c.isDigit = true) → (∀ c ∈ d, c.isDigit = true) →
      parseFractionInput (n ++ '/' :: d) =
        if natOfDigits d = 0 then none
        else some ((natOfDigits n : ℚ) / (natOfDigits d : ℚ))) ∧
    (∀ l : List Char, trimChars l = [] → parseFractionInput l = none) ∧
    (∀ l : List Char, parseMixed (trimChars l) = none →
      parseSimple (trimChars l) = none →
      parseFractionInput l = jsParseFloat (trimChars l)) ∧
    (∀ l : List Char, parseMixed (trimChars l) = none →
      parseSimple (trimChars l) = none → jsParseFloat (trimChars l) = none →
      parseFractionInput l = none) := by
  have trim_digit_ends : ∀ (wc : Char) (wt n dm : List Char) (dc : Char),
      wc.isDigit = true → dc.isDigit = true →
      trimChars ((wc :: wt) ++ ' ' :: (n ++ '/' :: (dm ++ [dc]))) =
        (wc :: wt) ++ ' ' :: (n ++ '/' :: (dm ++ [dc])) := by
    intro wc wt n dm dc hwc hdc
    have hshape : (wc :: wt) ++ ' ' :: (n ++ '/' :: (dm ++ [dc])) =
        wc :: ((wt ++ ' ' :: (n ++ '/' :: dm)) ++ [dc]) := by
      simp
    rw [hshape, trimChars_id _ _ _ (not_ws_of_digit hwc) (not_ws_of_digit hdc)]
  have trim_digit_ends2 : ∀ (nc : Char) (nt dm : List Char) (dc : Char),
      nc.isDigit = true → dc.isDigit = true →
      trimChars ((nc :: nt) ++ '/' :: (dm ++ [dc])) =
        (nc :: nt) ++ '/' :: (dm ++ [dc]) := by
    intro nc nt dm dc hnc hdc
    have hshape : (nc :: nt) ++ '/' :: (dm ++ [dc]) =
        nc :: ((nt ++ '/' :: dm) ++ [dc]) := by
      simp
    rw [hshape, trimChars_id _ _ _ (not_ws_of_digit hnc) (not_ws_of_digit hdc)]
  refine ⟨?_, ?_, ?_, ?_, ?_⟩
  · intro w n d hw0 hn0 hd0 hw hn hd hdz
    obtain ⟨wc, wt, rfl⟩ := List.exists_cons_of_ne_nil hw0
    obtain ⟨dm, dc, rfl⟩ := (List.eq_nil_or_concat d).resolve_left hd0
    simp only [List.concat_eq_append] at hd0 hd hdz ⊢
    have hwc : wc.isDigit = true := hw wc (List.mem_cons_self wc wt)
    have hdc : dc.isDigit = true := hd dc (by simp)
    unfold parseFractionInput
    dsimp only
    rw [trim_digit_ends wc wt n dm dc hwc hdc]
    rw [parseMixed_shape (wc :: wt) n (dm ++ [dc]) hw0 hn0 (by simp) hw hn hd]
    simp only [List.cons_append, List.isEmpty_cons, Bool.false_eq_true, if_false]
    rw [if_pos hdz]
  · intro n d hn0 hd0 hn hd
    obtain ⟨nc, nt, rfl⟩ := List.exists_cons_of_ne_nil hn0
    obtain ⟨dm, dc, rfl⟩ := (List.eq_nil_or_concat d).resolve_left hd0
    simp only [List.concat_eq_append] at hd0 hd ⊢
    have hnc : nc.isDigit = true := hn nc (List.mem_cons_self nc nt)
    have hdc : dc.isDigit = true := hd dc (by simp)
    unfold parseFractionInput
    dsimp only
    rw [trim_digit_ends2 nc nt dm dc hnc hdc]
    rw [parseMixed_none_on_simple (nc :: nt) (dm ++ [dc]) hn0 hn]
    rw [parseSimple_shape (nc :: nt) (dm ++ [dc]) hn0 (by simp) hn hd]
    simp only [List.cons_append, List.isEmpty_cons, Bool.false_eq_true, if_false]
    by_cases hz : natOfDigits (dm ++ [dc]) = 0
    · simp [hz]
    · simp [hz]
  · intro l h
    unfold parseFractionInput
    dsimp only
    simp [h]
  · intro l h1 h2
    unfold parseFractionInput
    dsimp only
    by_cases he : (trimChars l).isEmpty
    · rw [if_pos he]
      have hEmp : trimChars l = [] := by
        cases hc : trimChars l
        · rfl
        · rw [hc] at he
          exact absurd he (by simp)
      rw [hEmp]
      rfl
    · rw [if_neg he, h1, h2]
  · intro l h1 h2 h3
    unfold parseFractionInput
    dsimp only
    by_cases he : (trimChars l).isEmpty
    · rw [if_pos he]
    · rw [if_neg he, h1, h2, h3]

/-- Witness for C4 on the spec's own test values: one and a half, one
half, the empty input, a zero denominator, and a non-numeric input. -/
theorem C4_parseFractionInput_witness :
    parseFractionInput "1 1/2".data = some (3 / 2) ∧
    parseFractionInput "1/2".data = some (1 / 2) ∧
    parseFractionInput "".data = none ∧
    parseFractionInput "3/0".data = none ∧
    parseFractionInput "abc".data = none := by
  refine ⟨?_, ?_, ?_, ?_, ?_⟩
  · have h := C4_parseFractionInput_spec.1 ['1'] ['1'] ['2']
      (by decide) (by decide) (by decide) (by decide) (by decide) (by decide) (by decide)
    rw [show ("1 1/2".data) = ['1'] ++ ' ' :: (['1'] ++ '/' :: ['2']) from rfl, h]
    with_unfolding_all decide
  · have h := C4_parseFractionInput_spec.2.1 ['1'] ['2']
      (by decide) (by decide) (by decide) (by decide)
    rw [show ("1/2".data) = ['1'] ++ '/' :: ['2'] from rfl, h]
    with_unfolding_all decide
  · exact C4_parseFractionInput_spec.2.2.1 [] rfl
  · have h := C4_parseFractionInput_spec.2.1 ['3'] ['0']
      (by decide) (by decide) (by decide) (by decide)
    rw [show ("3/0".data) = ['3'] ++ '/' :: ['0'] from rfl, h]
    with_unfolding_all decide
  · exact C4_parseFractionInput_spec.2.2.2.2 "abc".data (by decide) (by decide) (by decide)

/-- The source's letter prediction computes exactly the amended-claim
prediction from the letters of the text. -/
theorem letterPredict_eq_text (ls : List Char) :
    letterPredict ls = textLetterPredict ls := by
  match ls with
  | [] => rfl
  | [x] => rfl
  | x :: y :: t =>
    unfold letterPredict textLetterPredict
    rw [if_pos (by simp)]
    simp only [List.getD_cons_zero, List.getD_cons_succ]

/-- C2 amended: on a question whose text matches the letter-sequence
pattern (and no exponent pattern), extract returns the character obtained
by applying the gap between the first two letters appearing anywhere in
the text to the last letter of the text, answering the default letter E
when the result would pass Z. -/
theorem C2_letter_amended (q : List Char)
    (hexp : expSection q = none) (hlt : letterTripleTest q = true) :
    calculateAnswer q Op.logic_patterns =
      ExtractResult.chr (textLetterPredict (q.filter Char.isAlpha)) := by
  unfold calculateAnswer
  rw [hexp]
  unfold calcLogicBranch
  rw [hlt]
  simp [letterPredict_eq_text]

/-- Witness for C2 on the sequence A, B, C, D, whose predicted next
letter is E. -/
theorem C2_letter_amended_witness :
    expSection "A, B, C, D".data = none ∧
    letterTripleTest "A, B, C, D".data = true ∧
    calculateAnswer "A, B, C, D".data Op.logic_patterns =
      ExtractResult.chr (textLetterPredict ("A, B, C, D".data.filter Char.isAlpha)) ∧
    textLetterPredict ("A, B, C, D".data.filter Char.isAlpha) = 'E' :=
  ⟨by decide, by decide, C2_letter_amended _ (by decide) (by decide), by decide⟩

/-- C2 counterexample: on the question text with sequence A, M, Y the
claim predicts the sequence gap 12 applied to Y, clamped at Z, giving Z;
the code instead takes the gap from the first two letters of the whole
text and, overshooting Z, returns the default letter E. -/
theorem C2_letter_counterexample :
    calculateAnswer "A, M, Y next?".data Op.logic_patterns = ExtractResult.chr 'E' ∧
    claimLetterClamp 'A' 'M' 'Y' = 'Z' ∧
    ExtractResult.chr 'E' ≠ ExtractResult.chr 'Z' := by
  refine ⟨by decide, by decide, by decide⟩

/-- C3 amended: on a fractions question whose text matches the
two-fraction pattern with operator plus or minus (the only operators the
pattern accepts) and no exponent pattern, extract returns the
cross-multiplied combination of the two fractions for that operator. -/
theorem C3_fractions_amended (q : List Char) (a b c d : ℕ) (opc : Char)
    (hexp : expSection q = none)
    (hm : scanFirst fracTwoAt q = some (a, b, opc, c, d))
    (hop : opc = '+' ∨ opc = '-')
    (_hb : b ≠ 0) (_hd : d ≠ 0) :
    calculateAnswer q Op.fractions = ExtractResult.num (claimFracCross a b c d opc) := by
  unfold calculateAnswer
  rw [hexp]
  unfold calcFractionsBranch
  rw [hm]
  rcases hop with rfl | rfl
  · simp [claimFracCross]
  · simp [claimFracCross]

/-- Witness for C3 on the question adding one quarter and one quarter. -/
theorem C3_fractions_amended_witness :
    expSection "What is 1/4 + 1/4?".data = none ∧
    scanFirst fracTwoAt "What is 1/4 + 1/4?".data = some (1, 4, '+', 1, 4) ∧
    calculateAnswer "What is 1/4 + 1/4?".data Op.fractions =
      ExtractResult.num (claimFracCross 1 4 1 4 '+') ∧
    claimFracCross 1 4 1 4 '+' = 1 / 2 :=
  ⟨by decide, by decide,
   C3_fractions_amended "What is 1/4 + 1/4?".data 1 4 1 4 '+'
     (by decide) (by decide) (Or.inl rfl) (by decide) (by decide),
   by with_unfolding_all decide⟩

/-- C3 counterexample: on the two-fraction multiplication question the
claim requires the cross-multiplied product three eighths, but the code's
two-fraction pattern only accepts plus and minus, so the text falls into
the scale branch (one half of 3) and extract returns three halves. -/
theorem C3_times_counterexample :
    calculateAnswer "What is 1/2 × 3/4?".data Op.fractions = ExtractResult.num (3 / 2) ∧
    claimFracCross 1 2 3 4 '×' = 3 / 8 ∧
    ExtractResult.num (3 / 2) ≠ ExtractResult.num (3 / 8) := by
  refine ⟨by with_unfolding_all decide, by with_unfolding_all decide,
    by with_unfolding_all decide⟩

/-- A geometric loop at ratio one forces a constant tail. -/
theorem geoLoop_one_const (t : List ℚ) : ∀ p : ℚ, geoLoop 1 p t = true →
    t = List.replicate t.length p := by
  induction t with
  | nil => intro p _; rfl
  | cons x xs ih =>
    intro p h
    unfold geoLoop at h
    simp only [Bool.and_eq_true, Bool.not_eq_eq_eq_not, Bool.not_true, beq_eq_false_iff_ne,
      ne_eq, beq_iff_eq] at h
    obtain ⟨⟨hp, hx⟩, hrest⟩ := h
    have hxp : x = p := by
      rw [div_eq_one_iff_eq hp] at hx
      exact hx
    subst hxp
    rw [List.length_cons, List.replicate_succ]
    conv_lhs => rw [ih x hrest]

/-- Differences of a constant integer list are zero. -/
theorem diffsZ_replicate (n : ℕ) (z : ℤ) :
    diffsZ (List.replicate n z) = List.replicate (n - 1) 0 := by
  induction n with
  | zero => rfl
  | succ m ih =>
    cases m with
    | zero => rfl
    | succ k =>
      rw [List.replicate_succ, List.replicate_succ]
      show diffsZ (z :: z :: List.replicate k z) = _
      unfold diffsZ
      rw [show z :: List.replicate k z = List.replicate (k + 1) z from
        (List.replicate_succ z k).symm]
      rw [ih]
      simp [List.replicate_succ]

/-- The head-equality test accepts a nonempty constant list. -/
theorem allEqHead_replicate (k : ℕ) (z : ℤ) :
    allEqHead (List.replicate (k + 1) z) = true := by
  rw [List.replicate_succ]
  unfold allEqHead
  simp only [List.all_eq_true, beq_iff_eq]
  intro x hx
  exact List.eq_of_mem_replicate hx

/-- The last entry of a nonempty constant list. -/
theorem getLast?_replicate (k : ℕ) (z : ℤ) :
    (List.replicate (k + 1) z).getLast? = some z := by
  induction k with
  | zero => rfl
  | succ m ih =>
    rw [List.replicate_succ]
    rw [List.getLast?_cons]
    rw [List.replicate_succ] at ih ⊢
    simpa [List.getLast?_cons] using ih

/-- The source's numeric cascade agrees with the specification-side
cascade on every extracted number list: the only difference is the
source's extra ratio-not-one guard on the geometric test, and a run that
is geometric with ratio one is constant, so the source's quadratic
branch returns the same next term the geometric rule would. -/
theorem codeSpec_cascade_eq (nums : List ℕ) :
    codeSequencePredict nums = specSequencePredict nums := by
  match nums with
  | [] => rfl
  | [a] => rfl
  | [a, b] => rfl
  | a :: b :: c :: t =>
    unfold codeSequencePredict specSequencePredict
    dsimp only
    by_cases hfib : isFibLike (a :: b :: c :: t) = true
    · rw [if_pos hfib, if_pos hfib]
    · rw [if_neg hfib, if_neg hfib]
      by_cases ha : a = 0
      · subst ha
        simp only [Nat.cast_zero, beq_self_eq_true, Bool.not_true, Bool.false_and, Bool.and_self,
          Bool.false_eq_true, if_false]
      · have haB : ((a == 0) : Bool) = false := by simp [ha]
        by_cases hG : geoLoop ((b : ℚ) / (a : ℚ)) (b : ℚ) (ratsOfNat (c :: t)) = true
        · by_cases hr : ((b : ℚ) / (a : ℚ)) = 1
          · -- geometric with ratio one: the whole run is constant
            have haQ : (a : ℚ) ≠ 0 := Nat.cast_ne_zero.mpr ha
            have hba : b = a := by
              have hQ : (b : ℚ) = (a : ℚ) := by
                rw [div_eq_one_iff_eq haQ] at hr
                exact hr
              exact_mod_cast hQ
            have hconst : ratsOfNat (c :: t) =
                List.replicate (ratsOfNat (c :: t)).length (b : ℚ) := by
              rw [hr] at hG
              exact geoLoop_one_const _ _ hG
            have hmemA : ∀ x ∈ c :: t, x = a := by
              intro x hx
              have hxQ : (x : ℚ) ∈ ratsOfNat (c :: t) := by
                unfold ratsOfNat
                exact List.mem_map_of_mem _ hx
              rw [hconst] at hxQ
              have hxrep := List.eq_of_mem_replicate hxQ
              have hxb : x = b := by exact_mod_cast hxrep
              rw [hxb, hba]
            have hlrep : a :: b :: c :: t = List.replicate (t.length + 3) a := by
              have hct : c :: t = List.replicate (c :: t).length a :=
                List.eq_replicate_of_mem hmemA
              rw [show t.length + 3 = ((c :: t).length + 1) + 1 by simp]
              rw [List.replicate_succ, List.replicate_succ]
              rw [hba]
              rw [← hct]
            have hcondC : ((!(a == 0)) && (!(((b : ℚ) / (a : ℚ)) == 1)) &&
                geoLoop ((b : ℚ) / (a : ℚ)) (b : ℚ) (ratsOfNat (c :: t))) = false := by
              simp [hr]
            have hcondS : ((!(a == 0)) &&
                geoLoop ((b : ℚ) / (a : ℚ)) (b : ℚ) (ratsOfNat (c :: t))) = true := by
              simp [haB, hG]
            rw [hcondC, hcondS]
            simp only [Bool.false_eq_true, if_false, if_true]
            rw [hlrep]
            have hmapZ : intsOfNat (List.replicate (t.length + 3) a) =
                List.replicate (t.length + 3) (a : ℤ) := by
              unfold intsOfNat
              rw [List.map_replicate]
            rw [hmapZ, diffsZ_replicate, diffsZ_replicate]
            have h31 : t.length + 3 - 1 = (t.length + 1) + 1 := by omega
            rw [h31]
            have h32 : (t.length + 1) + 1 - 1 = t.length + 1 := by omega
            rw [h32]
            rw [if_pos (allEqHead_replicate t.length 0)]
            rw [List.reverse_replicate]
            have hget0 : (List.replicate (t.length + 3) a).getD 0 0 = a := by
              rw [show t.length + 3 = (t.length + 2) + 1 by omega, List.replicate_succ]
              simp
            rw [hget0, getLast?_replicate]
            have hhead : (List.replicate (t.length + 1) (0 : ℤ)).headD 0 = 0 := by
              rw [List.replicate_succ]
              rfl
            rw [hhead, hr]
            simp
          · have hrB : ((((b : ℚ) / (a : ℚ)) == 1) : Bool) = false := by simp [hr]
            have hcondC : ((!(a == 0)) && (!(((b : ℚ) / (a : ℚ)) == 1)) &&
                geoLoop ((b : ℚ) / (a : ℚ)) (b : ℚ) (ratsOfNat (c :: t))) = true := by
              simp [haB, hrB, hG]
            have hcondS : ((!(a == 0)) &&
                geoLoop ((b : ℚ) / (a : ℚ)) (b : ℚ) (ratsOfNat (c :: t))) = true := by
              simp [haB, hG]
            rw [hcondC, hcondS]
        · have hcondC : ((!(a == 0)) && (!(((b : ℚ) / (a : ℚ)) == 1)) &&
              geoLoop ((b : ℚ) / (a : ℚ)) (b : ℚ) (ratsOfNat (c :: t))) = false := by
            simp [hG]
          have hcondS : ((!(a == 0)) &&
              geoLoop ((b : ℚ) / (a : ℚ)) (b : ℚ) (ratsOfNat (c :: t))) = false := by
            simp [hG]
          rw [hcondC, hcondS]

/-- C1 amended: on a logic-patterns question whose text contains a
contiguous comma-separated run of at least three integers, provided none
of the extractor's earlier branches fires (the exponent and root
patterns, the letter-sequence pattern, and the table of ten hardcoded
literal sequences), extract derives the candidate sequence from the
leftmost maximal run only — never from scattered digits elsewhere — and
predicts the next term by testing, in order: Fibonacci-like, then
geometric (constant ratio across the whole run), then quadratic
(constant second difference), else arithmetic (the last difference added
to the last term). -/
theorem C1_sequence_amended (q m : List Char)
    (hexp : expSection q = none)
    (hlt : letterTripleTest q = false)
    (hlit : literalSeqHit q = none)
    (hrun : findCommaRun q = some m)
    (hlen : 3 ≤ ((digitRuns m).map natOfDigits).length) :
    calculateAnswer q Op.logic_patterns =
      ExtractResult.num (specSequencePredict ((digitRuns m).map natOfDigits)) := by
  unfold calculateAnswer
  rw [hexp]
  unfold calcLogicBranch
  simp only [hlt, Bool.false_eq_true, if_false]
  rw [hlit, hrun]
  dsimp only
  rw [if_pos hlen, codeSpec_cascade_eq]

/-- Witness for C1 on a Fibonacci-like run predicting 66. -/
theorem C1_sequence_amended_witness :
    findCommaRun "7, 9, 16, 25, 41".data = some "7, 9, 16, 25, 41".data ∧
    (digitRuns "7, 9, 16, 25, 41".data).map natOfDigits = [7, 9, 16, 25, 41] ∧
    calculateAnswer "7, 9, 16, 25, 41".data Op.logic_patterns =
      ExtractResult.num
        (specSequencePredict ((digitRuns "7, 9, 16, 25, 41".data).map natOfDigits)) ∧
    specSequencePredict [7, 9, 16, 25, 41] = 66 :=
  ⟨by decide, by decide,
   C1_sequence_amended "7, 9, 16, 25, 41".data "7, 9, 16, 25, 41".data
     (by decide) (by decide) (by decide) (by decide) (by decide),
   by with_unfolding_all decide⟩

/-- C1 counterexample: the question text containing the run 2, 4, 6, 8,
16 also contains the hardcoded literal 2, 4, 6, 8, so extract returns
that entry's fixed answer 10, while the claim's cascade on the full run
(not Fibonacci-like, not geometric, second differences not constant)
falls through to the arithmetic rule and predicts 24. -/
theorem C1_literal_counterexample :
    calculateAnswer "2, 4, 6, 8, 16".data Op.logic_patterns = ExtractResult.num 10 ∧
    findCommaRun "2, 4, 6, 8, 16".data = some "2, 4, 6, 8, 16".data ∧
    specSequencePredict ((digitRuns "2, 4, 6, 8, 16".data).map natOfDigits) = 24 ∧
    ExtractResult.num 10 ≠ ExtractResult.num 24 := by
  refine ⟨by with_unfolding_all decide, by decide,
    by with_unfolding_all decide, by with_unfolding_all decide⟩

end MathWizard
